import Mathlib

/-!
imgaugmentation: a shallow embedding of `main.go` and `transforms.go`.

The two Go source files are translated function by function.

* Go `string` is `String`; Go `int` is `Int` (64-bit range checks are explicit where the
  code parses or multiplies integers).
* `log.Fatalf` ends the process: functions that can reach it return `Res α`, whose
  `fatal` constructor records which call site aborted.  A runtime panic (nil dereference)
  is the `panic` constructor.
* Everything that lives outside the repository is a parameter: the imaging library
  (`Lib`), the Unicode case tables (`Unicode`), the operating system (`OS`) and the
  sources of text content (`Env`).  `float64` is an abstract type `F` of that library.
* `json.RawMessage` is a JSON tree (`Json`); `json.Unmarshal` into the parameter structs
  is modelled by the `unmarshal*` functions below.
-/

namespace ImgAug

/-! ## Outcomes -/

/-- A Go `error` value, as far as the program inspects it (`os.IsNotExist`). -/
inductive GoError where
  | notExist
  | other (msg : String)
  deriving DecidableEq, Repr

/-- The `log.Fatalf` call sites of the two source files. -/
inductive Fatal where
  /-- Call site `main.go:177`. -/
  | couldNotCreateDir (path : String) (err : Option GoError)
  /-- Call site `main.go:216`. -/
  | unrecognizedTextTransform (tag : String)
  /-- Call site `main.go:241`. -/
  | rgbaForm
  /-- Call site `main.go:246`. -/
  | invalidR (part : String)
  /-- Call site `main.go:251`. -/
  | invalidG (part : String)
  /-- Call site `main.go:256`. -/
  | invalidB (part : String)
  /-- Call site `main.go:261`. -/
  | invalidA (part : String)
  /-- Call site `transforms.go:73`. -/
  | readTransformsFile (path : String)
  /-- Call site `transforms.go:80`. -/
  | unmarshalTransformsFile (path : String)
  /-- Call sites `transforms.go:92` and `transforms.go:450`. -/
  | noMappedFunction (typ : String)
  /-- Call site `transforms.go:112`. -/
  | unmarshalDetails
  deriving DecidableEq, Repr

/-- Result of running a piece of the program: it returns a value, or the process is
ended by `log.Fatalf`, or it panics. -/
inductive Res (α : Type) where
  | ok (a : α)
  | fatal (f : Fatal)
  | panic
  deriving DecidableEq, Repr

namespace Res

/-- Sequencing: a fatal exit or a panic stops everything after it. -/
def bind {α β : Type} : Res α → (α → Res β) → Res β
  | ok a, k => k a
  | fatal f, _ => fatal f
  | panic, _ => panic

/-- Post-process a returned value. -/
def map {α β : Type} (g : α → β) : Res α → Res β
  | ok a => ok (g a)
  | fatal f => fatal f
  | panic => panic

end Res

/-! ## Go standard-library string functions used by `main.go` -/

/-- Splitting a character list at every occurrence of `sep`; always at least one piece. -/
def splitChars (sep : Char) : List Char → List (List Char)
  | [] => [[]]
  | c :: cs =>
    if c = sep then [] :: splitChars sep cs
    else
      match splitChars sep cs with
      | [] => [[c]]
      | p :: ps => (c :: p) :: ps

/-- Go `strings.Split(s, sep)` for a one-character separator (the two call sites pass
`","` and `"\n"`). -/
def Split (s : String) (sep : Char) : List String :=
  (splitChars sep s.data).map String.mk

/-- Value of a decimal digit. -/
def digitVal (c : Char) : Option Nat :=
  if '0' ≤ c ∧ c ≤ '9' then some (c.toNat - 48) else none

/-- Left-to-right accumulation of decimal digits; `none` on a non-digit. -/
def parseDigits : List Char → Nat → Option Nat
  | [], acc => some acc
  | c :: cs, acc =>
    match digitVal c with
    | none => none
    | some d => parseDigits cs (acc * 10 + d)

/-- Sign and digit part of the text given to `strconv.Atoi`. -/
def splitSign : List Char → Bool × List Char
  | '-' :: r => (true, r)
  | '+' :: r => (false, r)
  | r => (false, r)

/-- Go `strconv.Atoi` on a 64-bit platform: an optional sign, then one or more decimal
digits, the value within the range of `int`; `none` stands for a non-nil error. -/
def Atoi (s : String) : Option Int :=
  let sd := splitSign s.data
  if sd.2 = [] then none
  else
    match parseDigits sd.2 0 with
    | none => none
    | some n =>
      let v : Int := if sd.1 then -(n : Int) else (n : Int)
      if -(2 : Int) ^ 63 ≤ v ∧ v < (2 : Int) ^ 63 then some v else none

/-- Go `%d` of an `int` (also `strconv.Itoa`). -/
def formatInt (i : Int) : String :=
  if i < 0 then "-" ++ Nat.repr i.natAbs else Nat.repr i.natAbs

/-- Case tables of Go package `unicode` for the runes above ASCII. -/
structure Unicode where
  upper : Char → Char
  lower : Char → Char

/-- Go `unicode.ToUpper`: ASCII letters are handled directly, the rest by the tables. -/
def toUpperRune (U : Unicode) (c : Char) : Char :=
  if c.toNat < 128 then
    if 'a' ≤ c ∧ c ≤ 'z' then Char.ofNat (c.toNat - 32) else c
  else U.upper c

/-- Go `unicode.ToLower`. -/
def toLowerRune (U : Unicode) (c : Char) : Char :=
  if c.toNat < 128 then
    if 'A' ≤ c ∧ c ≤ 'Z' then Char.ofNat (c.toNat + 32) else c
  else U.lower c

/-- Go `strings.ToUpper`. -/
def ToUpper (U : Unicode) (s : String) : String := String.mk (s.data.map (toUpperRune U))

/-- Go `strings.ToLower`. -/
def ToLower (U : Unicode) (s : String) : String := String.mk (s.data.map (toLowerRune U))

/-- Go `unicode.IsSpace`. -/
def isSpace (c : Char) : Bool :=
  let n := c.toNat
  n = 0x09 || n = 0x0A || n = 0x0B || n = 0x0C || n = 0x0D || n = 0x20 || n = 0x85 ||
  n = 0xA0 || n = 0x1680 || (0x2000 ≤ n && n ≤ 0x200A) || n = 0x2028 || n = 0x2029 ||
  n = 0x202F || n = 0x205F || n = 0x3000

/-- Go `strings.TrimSpace`: leading and trailing white space removed. -/
def TrimSpace (s : String) : String :=
  String.mk ((s.data.dropWhile isSpace).reverse.dropWhile isSpace).reverse

/-! ## JSON documents -/

/-- A JSON number literal: written as an integer (sign and digits only), or with a
fraction or an exponent, in which case its text is kept. -/
inductive JNumber where
  | int (i : Int)
  | real (text : String)
  deriving DecidableEq, Repr

/-- A parsed JSON value; the content of a non-empty `json.RawMessage`. -/
inductive Json where
  | null
  | bool (b : Bool)
  | num (n : JNumber)
  | str (s : String)
  | arr (xs : List Json)
  | obj (kvs : List (String × Json))

/-- Go `json.RawMessage`: `none` is the nil (empty) message of an absent field. -/
abbrev RawMessage := Option Json

/-! ## `main.go` -/

/-- Go `colors` (`main.go:235`). `strings.Split` never returns an empty slice for a
non-empty separator, but the `len(parts) == 0` test is kept as written. -/
def colors (s : String) : Res (Int × Int × Int × Int) :=
  let parts := Split s ','
  if parts.length = 0 then .ok (0, 0, 0, 255)
  else if parts.length < 4 then .fatal .rgbaForm
  else
    match Atoi (parts.getD 0 "") with
    | none => .fatal (.invalidR (parts.getD 0 ""))
    | some r =>
      match Atoi (parts.getD 1 "") with
      | none => .fatal (.invalidG (parts.getD 1 ""))
      | some g =>
        match Atoi (parts.getD 2 "") with
        | none => .fatal (.invalidB (parts.getD 2 ""))
        | some b =>
          match Atoi (parts.getD 3 "") with
          | none => .fatal (.invalidA (parts.getD 3 ""))
          | some a => .ok (r, g, b, a)

/-- External sources of text content and of files: `ioutil.ReadFile`, the process-wide
random source `r`, `regen.Generate`, and the syntactic JSON parser of `encoding/json`. -/
structure Env where
  ReadFile : String → Except GoError String
  Int63n : Int → Int
  Generate : String → Except GoError String
  parseJson : String → Option Json

/-- Go struct `Bounds`. -/
structure Bounds (F : Type) where
  Left : F
  Top : F

/-- Go struct `FixedContent`. -/
structure FixedContent where
  Content : String

/-- Go struct `FromRegexContent`. -/
structure FromRegexContent where
  Pattern : String

/-- Go struct `FromFileContent`. -/
structure FromFileContent where
  Content : String
  FilePath : String

/-- Go struct `Text`; the three content payloads are pointers, `none` is `nil`. -/
structure Text (F : Type) extends Bounds F where
  ContentType : String
  Fixed : Option FixedContent
  FromFile : Option FromFileContent
  FromRegex : Option FromRegexContent
  Ignore : Bool
  TextTransform : String

/-- Go `getRandomStringFromFile` (`main.go:224`); the result mirrors `(string, error)`. -/
def getRandomStringFromFile (E : Env) (f : String) :
    Res (String × Option GoError) :=
  match E.ReadFile f with
  | .error err => .ok ("", some err)
  | .ok content =>
    let lines := Split content '\n'
    let i := E.Int63n lines.length
    if 0 ≤ i ∧ i.toNat < lines.length then .ok (lines.getD i.toNat "", none) else .panic

/-- The loop over `transformParts` in `getContent` (`main.go:209`). -/
def applyTextTransforms (U : Unicode) : List String → String → Res String
  | [], data => .ok data
  | transform :: rest, data =>
    let tag := TrimSpace (ToLower U transform)
    if tag = "" then applyTextTransforms U rest data
    else if tag = "capitalize" then applyTextTransforms U rest (ToUpper U data)
    else .fatal (.unrecognizedTextTransform transform)

/-- The `switch` on the content type at the head of `getContent` (`main.go:193`). -/
def contentData {F : Type} (U : Unicode) (E : Env) (t : Text F) :
    Res (String × Option GoError) :=
  let ct := ToLower U t.ContentType
  if ct = "fixed" then
    match t.Fixed with
    | none => .panic
    | some fc => .ok (fc.Content, none)
  else if ct = "fromfile" then
    match t.FromFile with
    | none => .panic
    | some ff => getRandomStringFromFile E ff.FilePath
  else if ct = "fromregex" then
    match t.FromRegex with
    | none => .panic
    | some fr =>
      match E.Generate fr.Pattern with
      | .error err => .ok ("", some err)
      | .ok data => .ok (data, none)
  else .ok ("", some (.other ("Invalid content type: " ++ t.ContentType)))

/-- Go `getContent` (`main.go:189`); the result mirrors `(string, error)`. -/
def getContent {F : Type} (U : Unicode) (E : Env) (t : Text F) :
    Res (String × Option GoError) :=
  (contentData U E t).bind fun de =>
    match de.2 with
    | some err => .ok ("", some err)
    | none =>
      (applyTextTransforms U (Split t.TextTransform ',') de.1).map fun data => (data, none)

/-- The operating-system calls of `outputFolderCheck` over a file-system state `σ`:
the error of `os.Stat` and the effect and error of `os.MkdirAll`. -/
structure OS (σ : Type) where
  Stat : σ → String → Option GoError
  MkdirAll : σ → String → σ × Option GoError

/-- Go `os.IsNotExist`. -/
def IsNotExist : Option GoError → Bool
  | some .notExist => true
  | _ => false

/-- Go `outputFolderCheck` (`main.go:174`): the new file-system state and how the call
ends. `log.Fatalf` follows `os.MkdirAll` unconditionally. -/
def outputFolderCheck {σ : Type} (O : OS σ) (w : σ) (path : String) : σ × Res Unit :=
  if IsNotExist (O.Stat w path) then
    let r := O.MkdirAll w path
    (r.1, .fatal (.couldNotCreateDir path r.2))
  else (w, .ok ())

/-! ## `transforms.go`: external libraries -/

/-- Go `image.Point`. -/
structure Point where
  X : Int
  Y : Int
  deriving DecidableEq, Repr

/-- Go `image.Rectangle`. -/
structure Rectangle where
  Min : Point
  Max : Point
  deriving DecidableEq, Repr

/-- Go `transform.RotationOptions`. -/
structure RotationOptions where
  ResizeBounds : Bool
  Pivot : Option Point
  deriving DecidableEq, Repr

/-- The imaging library `bild`, `image.Image.Bounds`, and the `float64` operations the
program uses, over an image type `Img` and a float type `F`. Every field is the external
function of the same name; `Resize` is the call with `transform.NearestNeighbor`. -/
structure Lib (Img F : Type) where
  /-- The zero value of `float64`. -/
  zero : F
  /-- Conversion of a JSON number literal to `float64`; `none` when out of range. -/
  parseFloat : JNumber → Option F
  /-- Go `strconv.FormatFloat(x, 'f', -1, 64)`. -/
  FormatFloat : F → String
  /-- Go conversion `int(x)`. -/
  toInt : F → Int
  Bounds : Img → Rectangle
  Brightness : Img → F → Img
  Contrast : Img → F → Img
  Hue : Img → Int → Img
  Saturation : Img → F → Img
  Box : Img → F → Img
  Gaussian : Img → F → Img
  Dilate : Img → F → Img
  EdgeDetection : Img → F → Img
  Emboss : Img → Img
  Erode : Img → F → Img
  Grayscale : Img → Img
  Invert : Img → Img
  Median : Img → F → Img
  Sepia : Img → Img
  Sharpen : Img → Img
  Sobel : Img → Img
  UnsharpMask : Img → F → F → Img
  Threshold : Img → Nat → Img
  Crop : Img → Rectangle → Img
  FlipH : Img → Img
  FlipV : Img → Img
  ShearH : Img → F → Img
  ShearV : Img → F → Img
  Translate : Img → Int → Int → Img
  Resize : Img → Int → Int → Img
  Rotate : Img → F → RotationOptions → Img

/-- Two's-complement wrap-around of 64-bit `int` arithmetic. -/
def wrap64 (x : Int) : Int := (x + 2 ^ 63) % 2 ^ 64 - 2 ^ 63

/-! ## `transforms.go`: `json.Unmarshal` into the parameter structs -/

/-- Case folding of a key rune as `encoding/json` compares object keys with field names
(all field names here are ASCII letters, whose fold classes also hold U+017F and
U+212A). -/
def foldRune (c : Char) : Char :=
  if 'a' ≤ c ∧ c ≤ 'z' then Char.ofNat (c.toNat - 32)
  else if c.toNat = 0x17F then 'S'
  else if c.toNat = 0x212A then 'K'
  else c

/-- An object key selects a struct field by exact or case-insensitive match. -/
def keyMatches (key field : String) : Bool :=
  key = field || key.data.map foldRune = field.data.map foldRune

/-- One pass over the members of a JSON object for the field `field`: every matching
member is stored with `store` on top of the current value, the last one wins;
`none` is a decoding error. -/
def decodeField {α : Type} (store : Json → α → Option α) (field : String) :
    List (String × Json) → α → Option α
  | [], cur => some cur
  | (k, v) :: rest, cur =>
    if keyMatches k field then
      match store v cur with
      | none => none
      | some cur' => decodeField store field rest cur'
    else decodeField store field rest cur

/-- Storing into a `float64` field. -/
def storeFloat {Img F : Type} (L : Lib Img F) : Json → F → Option F
  | .null, cur => some cur
  | .num n, _ => L.parseFloat n
  | _, _ => none

/-- Storing into an `int` field (64-bit). -/
def storeInt : Json → Int → Option Int
  | .null, cur => some cur
  | .num (.int i), _ => if -(2 : Int) ^ 63 ≤ i ∧ i < (2 : Int) ^ 63 then some i else none
  | _, _ => none

/-- Storing into a `uint8` field. -/
def storeUint8 : Json → Nat → Option Nat
  | .null, cur => some cur
  | .num (.int i), _ => if 0 ≤ i ∧ i < 256 then some i.toNat else none
  | _, _ => none

/-- Storing into a `*bool` field. -/
def storeBoolPtr : Json → Option Bool → Option (Option Bool)
  | .null, _ => some none
  | .bool b, _ => some (some b)
  | _, _ => none

/-- Storing into a `*int` field. -/
def storeIntPtr : Json → Option Int → Option (Option Int)
  | .null, _ => some none
  | .num (.int i), _ =>
    if -(2 : Int) ^ 63 ≤ i ∧ i < (2 : Int) ^ 63 then some (some i) else none
  | _, _ => none

/-- Storing into a `string` field. -/
def storeString : Json → String → Option String
  | .null, cur => some cur
  | .str s, _ => some s
  | _, _ => none

/-- Storing into a `*string` field. -/
def storeStringPtr : Json → Option String → Option (Option String)
  | .null, _ => some none
  | .str s, _ => some (some s)
  | _, _ => none

/-- Storing into a `json.RawMessage` field: the member's value is kept as it is. -/
def storeRaw : Json → RawMessage → Option RawMessage
  | v, _ => some (some v)

/-- Go structs `Brightness`, `Contrast`, `Gamma`, `Saturation`, `BoxBlur`, `GaussianBlur`,
`Dilate`, `EdgeDetection`, `Erode`, `Median`, `Shear`: one field `Amount float64`. -/
structure FloatAmount (F : Type) where
  Amount : F

/-- Go struct `Hue`. -/
structure Hue where
  Amount : Int
  deriving DecidableEq, Repr

/-- Go struct `UnsharpMask`. -/
structure UnsharpMask (F : Type) where
  Amount : F
  Amount2 : F

/-- Go struct `Threshold` (`Amount uint8`). -/
structure Threshold where
  Amount : Nat
  deriving DecidableEq, Repr

/-- Go struct `CropIn`. -/
structure CropIn where
  Top : Int
  Left : Int
  Bottom : Int
  Right : Int
  deriving DecidableEq, Repr

/-- Go struct `Translate`. -/
structure Translate where
  X : Int
  Y : Int
  deriving DecidableEq, Repr

/-- Go struct `Resize`. -/
structure Resize where
  PercentX : Int
  PercentY : Int
  deriving DecidableEq, Repr

/-- Go struct `Rotation`. -/
structure Rotation (F : Type) where
  Degrees : F
  ResizeBounds : Option Bool
  PivotX : Option Int
  PivotY : Option Int

/-- Go struct `Variation`; the field `Type` is spelled `Typ`. -/
structure Variation where
  Typ : String
  Suffix : Option String
  Details : RawMessage

/-- Go struct `ImageVariation` (`main.go:151`). -/
structure ImageVariation (Img : Type) where
  img : Img
  info : String
  deriving DecidableEq, Repr

/-- Unmarshal into a struct with one `Amount float64`. -/
def unmarshalFloatAmount {Img F : Type} (L : Lib Img F) : Json → Option (FloatAmount F)
  | .null => some ⟨L.zero⟩
  | .obj kvs => (decodeField (storeFloat L) "Amount" kvs L.zero).map fun a => ⟨a⟩
  | _ => none

/-- Unmarshal into `Hue`. -/
def unmarshalHue : Json → Option Hue
  | .null => some ⟨0⟩
  | .obj kvs => (decodeField storeInt "Amount" kvs 0).map fun a => ⟨a⟩
  | _ => none

/-- Unmarshal into `UnsharpMask`. -/
def unmarshalUnsharpMask {Img F : Type} (L : Lib Img F) : Json → Option (UnsharpMask F)
  | .null => some ⟨L.zero, L.zero⟩
  | .obj kvs =>
    (decodeField (storeFloat L) "Amount" kvs L.zero).bind fun a =>
    (decodeField (storeFloat L) "Amount2" kvs L.zero).map fun a2 => ⟨a, a2⟩
  | _ => none

/-- Unmarshal into `Threshold`. -/
def unmarshalThreshold : Json → Option Threshold
  | .null => some ⟨0⟩
  | .obj kvs => (decodeField storeUint8 "Amount" kvs 0).map fun a => ⟨a⟩
  | _ => none

/-- Unmarshal into `CropIn`. -/
def unmarshalCropIn : Json → Option CropIn
  | .null => some ⟨0, 0, 0, 0⟩
  | .obj kvs =>
    (decodeField storeInt "Top" kvs 0).bind fun t =>
    (decodeField storeInt "Left" kvs 0).bind fun l =>
    (decodeField storeInt "Bottom" kvs 0).bind fun b =>
    (decodeField storeInt "Right" kvs 0).map fun r => ⟨t, l, b, r⟩
  | _ => none

/-- Unmarshal into `Translate`. -/
def unmarshalTranslate : Json → Option Translate
  | .null => some ⟨0, 0⟩
  | .obj kvs =>
    (decodeField storeInt "X" kvs 0).bind fun x =>
    (decodeField storeInt "Y" kvs 0).map fun y => ⟨x, y⟩
  | _ => none

/-- Unmarshal into `Resize`. -/
def unmarshalResize : Json → Option Resize
  | .null => some ⟨0, 0⟩
  | .obj kvs =>
    (decodeField storeInt "PercentX" kvs 0).bind fun x =>
    (decodeField storeInt "PercentY" kvs 0).map fun y => ⟨x, y⟩
  | _ => none

/-- Unmarshal into `Rotation`. -/
def unmarshalRotation {Img F : Type} (L : Lib Img F) : Json → Option (Rotation F)
  | .null => some ⟨L.zero, none, none, none⟩
  | .obj kvs =>
    (decodeField (storeFloat L) "Degrees" kvs L.zero).bind fun d =>
    (decodeField storeBoolPtr "ResizeBounds" kvs none).bind fun rb =>
    (decodeField storeIntPtr "PivotX" kvs none).bind fun px =>
    (decodeField storeIntPtr "PivotY" kvs none).map fun py => ⟨d, rb, px, py⟩
  | _ => none

/-- Unmarshal into one `Variation`. -/
def unmarshalVariation : Json → Option Variation
  | .null => some ⟨"", none, none⟩
  | .obj kvs =>
    (decodeField storeString "Type" kvs "").bind fun t =>
    (decodeField storeStringPtr "Suffix" kvs none).bind fun s =>
    (decodeField storeRaw "Details" kvs none).map fun d => ⟨t, s, d⟩
  | _ => none

/-- Unmarshal the elements of a JSON array, in order. -/
def unmarshalVariationList : List Json → Option (List Variation)
  | [] => some []
  | x :: xs =>
    match unmarshalVariation x with
    | none => none
    | some v => (unmarshalVariationList xs).map fun vs => v :: vs

/-- Unmarshal into `[]Variation` (Go type `Variations`). -/
def unmarshalVariations : Json → Option (List Variation)
  | .null => some []
  | .arr xs => unmarshalVariationList xs
  | _ => none

/-- Go `getObject` (`transforms.go:109`) for a target whose decoding is `dec`: an empty
message or a decoding error ends the run. -/
def getObject {α : Type} (dec : Json → Option α) (msg : RawMessage) : Res α :=
  match msg with
  | none => .fatal .unmarshalDetails
  | some j =>
    match dec j with
    | none => .fatal .unmarshalDetails
    | some v => .ok v

/-! ## `transforms.go`: the operations -/

/-- Go `brightness` (`transforms.go:120`). -/
def brightness {Img F : Type} (L : Lib Img F) (img : Img) (msg : RawMessage) : Res (Img × String) :=
  (getObject (unmarshalFloatAmount L) msg).bind fun v =>
    let newImg := L.Brightness img v.Amount
    let suffix := "brightness-" ++ L.FormatFloat v.Amount
    .ok (newImg, suffix)

/-- Go `contrast` (`transforms.go:134`). -/
def contrast {Img F : Type} (L : Lib Img F) (img : Img) (msg : RawMessage) : Res (Img × String) :=
  (getObject (unmarshalFloatAmount L) msg).bind fun v =>
    let newImg := L.Contrast img v.Amount
    let suffix := "contrast-" ++ L.FormatFloat v.Amount
    .ok (newImg, suffix)

/-- Go `gamma` (`transforms.go:147`). -/
def gamma {Img F : Type} (L : Lib Img F) (img : Img) (msg : RawMessage) : Res (Img × String) :=
  (getObject (unmarshalFloatAmount L) msg).bind fun v =>
    let newImg := L.Contrast img v.Amount
    let suffix := "contrast-" ++ L.FormatFloat v.Amount
    .ok (newImg, suffix)

/-- Go `hue` (`transforms.go:160`). -/
def hue {Img F : Type} (L : Lib Img F) (img : Img) (msg : RawMessage) : Res (Img × String) :=
  (getObject unmarshalHue msg).bind fun v =>
    let newImg := L.Hue img v.Amount
    let suffix := "hue-" ++ formatInt v.Amount
    .ok (newImg, suffix)

/-- Go `saturation` (`transforms.go:173`). -/
def saturation {Img F : Type} (L : Lib Img F) (img : Img) (msg : RawMessage) : Res (Img × String) :=
  (getObject (unmarshalFloatAmount L) msg).bind fun v =>
    let newImg := L.Saturation img v.Amount
    let suffix := "saturation-" ++ L.FormatFloat v.Amount
    .ok (newImg, suffix)

/-- Go `boxBlur` (`transforms.go:186`). -/
def boxBlur {Img F : Type} (L : Lib Img F) (img : Img) (msg : RawMessage) : Res (Img × String) :=
  (getObject (unmarshalFloatAmount L) msg).bind fun v =>
    let newImg := L.Box img v.Amount
    let suffix := "boxBlur-" ++ L.FormatFloat v.Amount
    .ok (newImg, suffix)

/-- Go `gaussianBlur` (`transforms.go:199`). -/
def gaussianBlur {Img F : Type} (L : Lib Img F) (img : Img) (msg : RawMessage) : Res (Img × String) :=
  (getObject (unmarshalFloatAmount L) msg).bind fun v =>
    let newImg := L.Gaussian img v.Amount
    let suffix := "gaussianBlur-" ++ L.FormatFloat v.Amount
    .ok (newImg, suffix)

/-- Go `dilate` (`transforms.go:212`). -/
def dilate {Img F : Type} (L : Lib Img F) (img : Img) (msg : RawMessage) : Res (Img × String) :=
  (getObject (unmarshalFloatAmount L) msg).bind fun v =>
    let newImg := L.Dilate img v.Amount
    let suffix := "dilate-" ++ L.FormatFloat v.Amount
    .ok (newImg, suffix)

/-- Go `edgeDetection` (`transforms.go:225`). -/
def edgeDetection {Img F : Type} (L : Lib Img F) (img : Img) (msg : RawMessage) : Res (Img × String) :=
  (getObject (unmarshalFloatAmount L) msg).bind fun v =>
    let newImg := L.EdgeDetection img v.Amount
    let suffix := "edgeDetection-" ++ L.FormatFloat v.Amount
    .ok (newImg, suffix)

/-- Go `emboss` (`transforms.go:234`). -/
def emboss {Img F : Type} (L : Lib Img F) (img : Img) (_msg : RawMessage) : Res (Img × String) :=
  let newImg := L.Emboss img
  let suffix := "emboss"
  .ok (newImg, suffix)

/-- Go `erode` (`transforms.go:245`). -/
def erode {Img F : Type} (L : Lib Img F) (img : Img) (msg : RawMessage) : Res (Img × String) :=
  (getObject (unmarshalFloatAmount L) msg).bind fun v =>
    let newImg := L.Erode img v.Amount
    let suffix := "erode-" ++ L.FormatFloat v.Amount
    .ok (newImg, suffix)

/-- Go `grayscale` (`transforms.go:254`). -/
def grayscale {Img F : Type} (L : Lib Img F) (img : Img) (_msg : RawMessage) : Res (Img × String) :=
  let newImg := L.Grayscale img
  let suffix := "grayscale"
  .ok (newImg, suffix)

/-- Go `invert` (`transforms.go:261`). -/
def invert {Img F : Type} (L : Lib Img F) (img : Img) (_msg : RawMessage) : Res (Img × String) :=
  let newImg := L.Invert img
  let suffix := "invert"
  .ok (newImg, suffix)

/-- Go `median` (`transforms.go:272`). -/
def median {Img F : Type} (L : Lib Img F) (img : Img) (msg : RawMessage) : Res (Img × String) :=
  (getObject (unmarshalFloatAmount L) msg).bind fun v =>
    let newImg := L.Median img v.Amount
    let suffix := "median-" ++ L.FormatFloat v.Amount
    .ok (newImg, suffix)

/-- Go `sepia` (`transforms.go:281`). -/
def sepia {Img F : Type} (L : Lib Img F) (img : Img) (_msg : RawMessage) : Res (Img × String) :=
  let newImg := L.Sepia img
  let suffix := "sepia"
  .ok (newImg, suffix)

/-- Go `sharpen` (`transforms.go:287`). -/
def sharpen {Img F : Type} (L : Lib Img F) (img : Img) (_msg : RawMessage) : Res (Img × String) :=
  let newImg := L.Sharpen img
  let suffix := "sharpen"
  .ok (newImg, suffix)

/-- Go `sobel` (`transforms.go:294`). -/
def sobel {Img F : Type} (L : Lib Img F) (img : Img) (_msg : RawMessage) : Res (Img × String) :=
  let newImg := L.Sobel img
  let suffix := "sobel"
  .ok (newImg, suffix)

/-- Go `unsharpMask` (`transforms.go:306`). -/
def unsharpMask {Img F : Type} (L : Lib Img F) (img : Img) (msg : RawMessage) :
    Res (Img × String) :=
  (getObject (unmarshalUnsharpMask L) msg).bind fun v =>
    let newImg := L.UnsharpMask img v.Amount v.Amount2
    let suffix := "unsharpMask-" ++ L.FormatFloat v.Amount ++ "-" ++ L.FormatFloat v.Amount2
    .ok (newImg, suffix)

/-- Go `threshold` (`transforms.go:319`). -/
def threshold {Img F : Type} (L : Lib Img F) (img : Img) (msg : RawMessage) :
    Res (Img × String) :=
  (getObject unmarshalThreshold msg).bind fun v =>
    let newImg := L.Threshold img v.Amount
    let suffix := "threshold-" ++ formatInt v.Amount
    .ok (newImg, suffix)

/-- Go `cropIn` (`transforms.go:335`). The four `-=` updates are kept as written: the
`Min` corner is moved by subtracting `Left` and `Top`. -/
def cropIn {Img F : Type} (L : Lib Img F) (img : Img) (msg : RawMessage) : Res (Img × String) :=
  (getObject unmarshalCropIn msg).bind fun v =>
    let rect := L.Bounds img
    let rect : Rectangle := { rect with Min := { rect.Min with X := wrap64 (rect.Min.X - v.Left) } }
    let rect : Rectangle := { rect with Min := { rect.Min with Y := wrap64 (rect.Min.Y - v.Top) } }
    let rect : Rectangle := { rect with Max := { rect.Max with X := wrap64 (rect.Max.X - v.Right) } }
    let rect : Rectangle := { rect with Max := { rect.Max with Y := wrap64 (rect.Max.Y - v.Bottom) } }
    let newImg := L.Crop img rect
    let suffix := "cropIn-" ++ formatInt v.Left ++ "-" ++ formatInt v.Top ++ "-" ++
      formatInt v.Bottom ++ "-" ++ formatInt v.Right
    .ok (newImg, suffix)

/-- Go `flipH` (`transforms.go:349`). -/
def flipH {Img F : Type} (L : Lib Img F) (img : Img) (_msg : RawMessage) : Res (Img × String) :=
  let newImg := L.FlipH img
  let suffix := "flipH"
  .ok (newImg, suffix)

/-- Go `flipV` (`transforms.go:356`). -/
def flipV {Img F : Type} (L : Lib Img F) (img : Img) (_msg : RawMessage) : Res (Img × String) :=
  let newImg := L.FlipV img
  let suffix := "flipV"
  .ok (newImg, suffix)

/-- Go `shearH` (`transforms.go:367`). -/
def shearH {Img F : Type} (L : Lib Img F) (img : Img) (msg : RawMessage) : Res (Img × String) :=
  (getObject (unmarshalFloatAmount L) msg).bind fun v =>
    let newImg := L.ShearH img v.Amount
    let suffix := "shearH-" ++ L.FormatFloat v.Amount
    .ok (newImg, suffix)

/-- Go `shearV` (`transforms.go:376`). -/
def shearV {Img F : Type} (L : Lib Img F) (img : Img) (msg : RawMessage) : Res (Img × String) :=
  (getObject (unmarshalFloatAmount L) msg).bind fun v =>
    let newImg := L.ShearV img v.Amount
    let suffix := "shearY-" ++ L.FormatFloat v.Amount
    .ok (newImg, suffix)

/-- Go `translate` (`transforms.go:390`). -/
def translate {Img F : Type} (L : Lib Img F) (img : Img) (msg : RawMessage) :
    Res (Img × String) :=
  (getObject unmarshalTranslate msg).bind fun v =>
    let newImg := L.Translate img v.X v.Y
    let suffix := "translate-" ++ formatInt v.X ++ "-" ++ formatInt v.Y
    .ok (newImg, suffix)

/-- The expression `int(dim * (1.0 + percent/100))` of `resize` (`transforms.go:408` and
`409`). It is an `int` expression: the constant `1.0` converts to `int`, and `/` is
integer division truncating toward zero. -/
def scaleDim (dim percent : Int) : Int :=
  wrap64 (dim * wrap64 (1 + Int.tdiv percent 100))

/-- Go `resize` (`transforms.go:404`). -/
def resize {Img F : Type} (L : Lib Img F) (img : Img) (msg : RawMessage) : Res (Img × String) :=
  (getObject unmarshalResize msg).bind fun v =>
    let rect := L.Bounds img
    let x := scaleDim rect.Max.X v.PercentX
    let y := scaleDim rect.Max.Y v.PercentY
    let newImg := L.Resize img x y
    let suffix := "resize-" ++ formatInt v.PercentX ++ "-" ++ formatInt v.PercentY
    .ok (newImg, suffix)

/-- The `transform.RotationOptions` that `rotate` builds from a decoded `Rotation`. -/
def rotationOptions {F : Type} (v : Rotation F) : RotationOptions :=
  let opts : RotationOptions := ⟨false, none⟩
  let opts : RotationOptions :=
    if v.ResizeBounds = some true then { opts with ResizeBounds := true } else opts
  match v.PivotX, v.PivotY with
  | some px, some py => { opts with Pivot := some ⟨px, py⟩ }
  | _, _ => opts

/-- Go `rotate` (`transforms.go:423`). -/
def rotate {Img F : Type} (L : Lib Img F) (img : Img) (msg : RawMessage) : Res (Img × String) :=
  (getObject (unmarshalRotation L) msg).bind fun v =>
    let opts := rotationOptions v
    let newImg := L.Rotate img v.Degrees opts
    let suffix := "rotate-" ++ formatInt (L.toInt v.Degrees)
    .ok (newImg, suffix)

/-- The type of the values of the registry `m`. -/
abbrev Op (Img : Type) := Img → RawMessage → Res (Img × String)

/-- The map literal `m` (`transforms.go:19`): the 27 entries present at process start. -/
def m0 {Img F : Type} (L : Lib Img F) (name : String) : Option (Op Img) :=
  match name with
  | "brightness" => some (brightness L)
  | "contrast" => some (contrast L)
  | "gamma" => some (gamma L)
  | "hue" => some (hue L)
  | "saturation" => some (saturation L)
  | "boxBlur" => some (boxBlur L)
  | "gaussianBlur" => some (gaussianBlur L)
  | "dilate" => some (dilate L)
  | "edgeDetection" => some (edgeDetection L)
  | "emboss" => some (emboss L)
  | "erode" => some (erode L)
  | "grayscale" => some (grayscale L)
  | "invert" => some (invert L)
  | "median" => some (median L)
  | "sepia" => some (sepia L)
  | "sharpen" => some (sharpen L)
  | "sobel" => some (sobel L)
  | "unsharpMask" => some (unsharpMask L)
  | "threshold" => some (threshold L)
  | "cropIn" => some (cropIn L)
  | "flipH" => some (flipH L)
  | "flipV" => some (flipV L)
  | "shearH" => some (shearH L)
  | "shearV" => some (shearV L)
  | "translate" => some (translate L)
  | "resize" => some (resize L)
  | "rotate" => some (rotate L)
  | _ => none

/-! ## `transforms.go`: `combine` and `doTransforms` -/

/-- A raw member value produced by a pass of `decodeField storeRaw` is the starting value
or the value of one of the members. -/
theorem decodeField_storeRaw_mem (field : String) (d : Json) :
    ∀ (kvs : List (String × Json)) (cur : RawMessage),
      decodeField storeRaw field kvs cur = some (some d) →
        cur = some d ∨ ∃ k, (k, d) ∈ kvs := by
  intro kvs
  induction kvs with
  | nil =>
    intro cur h
    simp only [decodeField, Option.some.injEq] at h
    exact Or.inl h
  | cons kv rest ih =>
    intro cur h
    obtain ⟨k, v⟩ := kv
    simp only [decodeField] at h
    split at h
    · simp only [storeRaw] at h
      rcases ih _ h with h1 | ⟨k', hk⟩
      · simp only [Option.some.injEq] at h1
        exact Or.inr ⟨k, by simp [h1]⟩
      · exact Or.inr ⟨k', List.mem_cons_of_mem _ hk⟩
    · rcases ih _ h with h1 | ⟨k', hk⟩
      · exact Or.inl h1
      · exact Or.inr ⟨k', List.mem_cons_of_mem _ hk⟩

/-- The `Details` of a decoded `Variation` is a proper part of the JSON value it was
decoded from. -/
theorem sizeOf_details_lt_of_unmarshalVariation (x : Json) (v : Variation) (d : Json)
    (h : unmarshalVariation x = some v) (hd : v.Details = some d) : sizeOf d < sizeOf x := by
  cases x with
  | null =>
    simp only [unmarshalVariation, Option.some.injEq] at h
    subst h
    simp at hd
  | obj kvs =>
    simp only [unmarshalVariation, Option.bind_eq_some, Option.map_eq_some'] at h
    obtain ⟨t, _, s, _, r, hr, hv⟩ := h
    subst hv
    simp only at hd
    subst hd
    rcases decodeField_storeRaw_mem _ d kvs none hr with h1 | ⟨k, hk⟩
    · simp at h1
    · have h1 := List.sizeOf_lt_of_mem hk
      simp only [Prod.mk.sizeOf_spec] at h1
      simp only [Json.obj.sizeOf_spec]
      omega
  | bool b => simp [unmarshalVariation] at h
  | num n => simp [unmarshalVariation] at h
  | str s => simp [unmarshalVariation] at h
  | arr xs => simp [unmarshalVariation] at h

/-- Every decoded list element comes from an array element. -/
theorem mem_unmarshalVariationList (v : Variation) :
    ∀ (xs : List Json) (vs : List Variation), unmarshalVariationList xs = some vs → v ∈ vs →
      ∃ x, x ∈ xs ∧ unmarshalVariation x = some v := by
  intro xs
  induction xs with
  | nil =>
    intro vs h hv
    simp only [unmarshalVariationList, Option.some.injEq] at h
    subst h
    simp at hv
  | cons x rest ih =>
    intro vs h hv
    simp only [unmarshalVariationList] at h
    split at h
    · simp at h
    · rename_i v0 hv0
      simp only [Option.map_eq_some'] at h
      obtain ⟨vs', hvs', e⟩ := h
      subst e
      rcases List.mem_cons.mp hv with e | hmem
      · subst e
        exact ⟨x, by simp, hv0⟩
      · obtain ⟨y, hy, hy2⟩ := ih vs' hvs' hmem
        exact ⟨y, List.mem_cons_of_mem _ hy, hy2⟩

/-- The nested messages of a decoded `Variations` value are proper parts of the message
they were decoded from: the recursion of `combine` is well founded. -/
theorem sizeOf_details_lt (j : Json) (vs : List Variation) (v : Variation)
    (h : unmarshalVariations j = some vs) (hv : v ∈ vs) :
    sizeOf v.Details < sizeOf (some j) := by
  cases hd : v.Details with
  | none => cases j <;> simp
  | some d =>
    cases j with
    | arr xs =>
      simp only [unmarshalVariations] at h
      obtain ⟨x, hx, hxv⟩ := mem_unmarshalVariationList v xs vs h hv
      have h1 := sizeOf_details_lt_of_unmarshalVariation x v d hxv hd
      have h2 := List.sizeOf_lt_of_mem hx
      simp only [Option.some.sizeOf_spec, Json.arr.sizeOf_spec]
      omega
    | null =>
      simp only [unmarshalVariations, Option.some.injEq] at h
      subst h
      simp at hv
    | bool b => simp [unmarshalVariations] at h
    | num n => simp [unmarshalVariations] at h
    | str s => simp [unmarshalVariations] at h
    | obj kvs => simp [unmarshalVariations] at h

/-- Go `combine` (`transforms.go:443`). The registry lookup `m[v.Type]` is written out:
the key `"combine"` holds `combine` itself (stored by `doTransforms` before any call),
every other key is looked up in the map literal. -/
def combine {Img F : Type} (L : Lib Img F) (img : Img) (msg : RawMessage) : Res (Img × String) :=
  match msg with
  | none => .fatal .unmarshalDetails
  | some j =>
    match h : unmarshalVariations j with
    | none => .fatal .unmarshalDetails
    | some vs =>
      (vs.attach.foldl
        (fun (acc : Res Img) (v : { v : Variation // v ∈ vs }) =>
          acc.bind fun img =>
            if v.1.Typ = "combine" then
              have : sizeOf v.1.Details < sizeOf (some j) := sizeOf_details_lt j vs v.1 h v.2
              (combine L img v.1.Details).map Prod.fst
            else
              match m0 L v.1.Typ with
              | none => .fatal (.noMappedFunction v.1.Typ)
              | some fn => (fn img v.1.Details).map Prod.fst)
        (.ok img)).map fun img => (img, "combine")
termination_by sizeOf msg

/-- The registry `m` once `doTransforms` has executed `m["combine"] = combine`. -/
def m {Img F : Type} (L : Lib Img F) (name : String) : Option (Op Img) :=
  if name = "combine" then some (combine L) else m0 L name

/-- Go `getSuffix` (`transforms.go:458`), at its only call site (a `Variation`). -/
def getSuffix (v : Variation) : String × Bool :=
  match v.Suffix with
  | none => ("", false)
  | some val => (val, true)

/-- The `for` loop of `doTransforms` (`transforms.go:86`): `img` is the function
argument, which the loop never reassigns; `imgs` is the slice being appended to. -/
def doTransformsLoop {Img F : Type} (L : Lib Img F) (img : Img) :
    List Variation → List (ImageVariation Img) → Res (List (ImageVariation Img))
  | [], imgs => .ok imgs
  | v :: rest, imgs =>
    let gs := getSuffix v
    match m L v.Typ with
    | none => .fatal (.noMappedFunction v.Typ)
    | some fn =>
      match fn img v.Details with
      | .fatal f => .fatal f
      | .panic => .panic
      | .ok (newImg, defaultSuffix) =>
        let suffix := if gs.2 then gs.1 else defaultSuffix
        doTransformsLoop L img rest (imgs ++ [⟨newImg, suffix⟩])

/-- Go `doTransforms` (`transforms.go:55`); `tFile` is a `*string`. -/
def doTransforms {Img F : Type} (L : Lib Img F) (E : Env) (img : Img) (tFile : Option String) :
    Res (List (ImageVariation Img)) :=
  let imgs : List (ImageVariation Img) := [⟨img, ""⟩]
  match tFile with
  | none => .ok imgs
  | some path =>
    if path = "" then .ok imgs
    else
      match E.ReadFile path with
      | .error _ => .fatal (.readTransformsFile path)
      | .ok b =>
        match (E.parseJson b).bind unmarshalVariations with
        | none => .fatal (.unmarshalTransformsFile path)
        | some variations => doTransformsLoop L img variations imgs

/-- The `for` loop of `combine` (`transforms.go:447`) read with the registry `m`: the
image is threaded from one nested step to the next, each nested suffix is dropped. -/
def combineLoop {Img F : Type} (L : Lib Img F) : List Variation → Img → Res Img
  | [], img => .ok img
  | v :: rest, img =>
    match m L v.Typ with
    | none => .fatal (.noMappedFunction v.Typ)
    | some fn => (fn img v.Details).bind fun r => combineLoop L rest r.1

/-- One iteration of the loop of `combine`, on the outcome so far. -/
def combineStep {Img F : Type} (L : Lib Img F) (acc : Res Img) (v : Variation) : Res Img :=
  acc.bind fun img =>
    match m L v.Typ with
    | none => .fatal (.noMappedFunction v.Typ)
    | some fn => (fn img v.Details).map Prod.fst

/-- The relation "running the nested steps `vs` one after another from `img` ends in
`out`": every step is looked up in the registry and applied to the image produced by the
step before it; the suffix each step returns plays no part. -/
inductive Threaded {Img F : Type} (L : Lib Img F) : Img → List Variation → Img → Prop where
  | done (img : Img) : Threaded L img [] img
  | step {img mid out : Img} {v : Variation} {rest : List Variation} {fn : Op Img}
      {sfx : String} (hm : m L v.Typ = some fn) (hf : fn img v.Details = .ok (mid, sfx))
      (hrest : Threaded L mid rest out) : Threaded L img (v :: rest) out

/-- What one top-level step of `doTransforms` contributes for the base image `img`:
`iv` is the image variation of step `v`. -/
def StepYields {Img F : Type} (L : Lib Img F) (img : Img) (v : Variation)
    (iv : ImageVariation Img) : Prop :=
  ∃ fn newImg defaultSuffix, m L v.Typ = some fn ∧
    fn img v.Details = .ok (newImg, defaultSuffix) ∧ iv.img = newImg ∧
    iv.info = (match v.Suffix with
      | some s => s
      | none => defaultSuffix)

/-- Membership in the range of Go `int` on a 64-bit platform. -/
def InInt64 (x : Int) : Prop := -(2 : Int) ^ 63 ≤ x ∧ x < (2 : Int) ^ 63

instance (x : Int) : Decidable (InInt64 x) := by
  unfold InInt64
  infer_instance

/-! ## Reference instances of the external parameters

They are used to run the embedding on concrete inputs. -/

/-- Symbolic images: a named source image with its bounds, or the record of one call of
an imaging function with its integer arguments on an earlier image. -/
inductive SymImg where
  | source (name : String) (bounds : Rectangle)
  | call (fn : String) (args : List Int) (input : SymImg)
  deriving DecidableEq, Repr

/-- Bounds of a symbolic image: those of the source it derives from. -/
def SymImg.bounds : SymImg → Rectangle
  | .source _ b => b
  | .call _ _ input => input.bounds

/-- Encoding of rotation options as call arguments. -/
def symRotationArgs (o : RotationOptions) : List Int :=
  (if o.ResizeBounds then 1 else 0) ::
    (match o.Pivot with
     | none => []
     | some p => [p.X, p.Y])

/-- The symbolic imaging library: `float64` is restricted to whole numbers (`F = Int`),
whose `FormatFloat` text is their decimal form; every imaging function records its call. -/
def symLib : Lib SymImg Int where
  zero := 0
  parseFloat := fun n =>
    match n with
    | .int i => some i
    | .real _ => none
  FormatFloat := formatInt
  toInt := fun x => x
  Bounds := SymImg.bounds
  Brightness := fun i a => .call "adjust.Brightness" [a] i
  Contrast := fun i a => .call "adjust.Contrast" [a] i
  Hue := fun i a => .call "adjust.Hue" [a] i
  Saturation := fun i a => .call "adjust.Saturation" [a] i
  Box := fun i a => .call "blur.Box" [a] i
  Gaussian := fun i a => .call "blur.Gaussian" [a] i
  Dilate := fun i a => .call "effect.Dilate" [a] i
  EdgeDetection := fun i a => .call "effect.EdgeDetection" [a] i
  Emboss := fun i => .call "effect.Emboss" [] i
  Erode := fun i a => .call "effect.Erode" [a] i
  Grayscale := fun i => .call "effect.Grayscale" [] i
  Invert := fun i => .call "effect.Invert" [] i
  Median := fun i a => .call "effect.Median" [a] i
  Sepia := fun i => .call "effect.Sepia" [] i
  Sharpen := fun i => .call "effect.Sharpen" [] i
  Sobel := fun i => .call "effect.Sobel" [] i
  UnsharpMask := fun i a b => .call "effect.UnsharpMask" [a, b] i
  Threshold := fun i a => .call "segment.Threshold" [a] i
  Crop := fun i r => .call "transform.Crop" [r.Min.X, r.Min.Y, r.Max.X, r.Max.Y] i
  FlipH := fun i => .call "transform.FlipH" [] i
  FlipV := fun i => .call "transform.FlipV" [] i
  ShearH := fun i a => .call "transform.ShearH" [a] i
  ShearV := fun i a => .call "transform.ShearV" [a] i
  Translate := fun i x y => .call "transform.Translate" [x, y] i
  Resize := fun i x y => .call "transform.Resize" [x, y] i
  Rotate := fun i d o => .call "transform.Rotate" (d :: symRotationArgs o) i

/-- A 100 by 100 source image. -/
def srcImg : SymImg := .source "src" ⟨⟨0, 0⟩, ⟨100, 100⟩⟩

/-- Identity case tables above ASCII. -/
def plainUnicode : Unicode := ⟨fun c => c, fun c => c⟩

/-- An environment whose only file, `transforms.json`, holds the document `doc`. -/
def fileEnv (doc : Json) : Env where
  ReadFile := fun p => if p = "transforms.json" then .ok "transforms" else .error .notExist
  Int63n := fun _ => 0
  Generate := fun p => .ok p
  parseJson := fun _ => some doc

/-- A file system given by the list of existing folders, where creating a folder works. -/
def okOS : OS (List String) where
  Stat := fun w p => if p ∈ w then none else some .notExist
  MkdirAll := fun w p => (p :: w, none)

/-- A file system given by the list of existing folders, where creating a folder fails. -/
def readOnlyOS : OS (List String) where
  Stat := fun w p => if p ∈ w then none else some .notExist
  MkdirAll := fun w _ => (w, some (.other "permission denied"))

/-- The variations document `[{"Type": "flipH"}, {"Type": "flipV"}]`. -/
def flipsDoc : Json :=
  .arr [.obj [("Type", .str "flipH")], .obj [("Type", .str "flipV")]]

/-- The tag that `getContent` compares: lower-cased, then trimmed. -/
def normTag (U : Unicode) (transform : String) : String := TrimSpace (ToLower U transform)

/-- A `Fixed` text with content `content` and transform chain `chain`. -/
def fixedText (content chain : String) : Text Int where
  Left := 0
  Top := 0
  ContentType := "Fixed"
  Fixed := some ⟨content⟩
  FromFile := none
  FromRegex := none
  Ignore := false
  TextTransform := chain

/-- The `Details` of a `cropIn` step with all four parameters equal to 10. -/
def cropDoc : Json :=
  .obj [("Left", .num (.int 10)), ("Top", .num (.int 10)), ("Right", .num (.int 10)),
    ("Bottom", .num (.int 10))]

/-- The `Details` `{"Amount": 2}`. -/
def amountDoc : Json := .obj [("Amount", .num (.int 2))]

/-- The variations document
`[{"Type": "combine", "Details": [{"Type": "flipH"}]},
  {"Type": "gamma", "Suffix": "", "Details": {"Amount": 2}}]`. -/
def nestedDoc : Json :=
  .arr [.obj [("Type", .str "combine"), ("Details", .arr [.obj [("Type", .str "flipH")]])],
    .obj [("Type", .str "gamma"), ("Suffix", .str ""), ("Details", amountDoc)]]

/-- The decoded steps of `nestedDoc`. -/
def nestedSteps : List Variation :=
  [⟨"combine", none, some (.arr [.obj [("Type", .str "flipH")]])⟩,
    ⟨"gamma", some "", some amountDoc⟩]

/-! ## Lemmas on the string functions -/

theorem splitChars_ne_nil (sep : Char) (l : List Char) : splitChars sep l ≠ [] := by
  induction l with
  | nil => simp [splitChars]
  | cons c cs ih =>
    unfold splitChars
    split
    · simp
    · split <;> simp

theorem splitChars_of_not_mem (sep : Char) (p : List Char) (h : sep ∉ p) :
    splitChars sep p = [p] := by
  induction p with
  | nil => simp [splitChars]
  | cons c cs ih =>
    have hc : c ≠ sep := fun e => h (by simp [e])
    have hcs : sep ∉ cs := fun e => h (by simp [e])
    simp [splitChars, hc, ih hcs]

theorem splitChars_append_sep (sep : Char) (p rest : List Char) (h : sep ∉ p) :
    splitChars sep (p ++ sep :: rest) = p :: splitChars sep rest := by
  induction p with
  | nil => simp [splitChars]
  | cons c cs ih =>
    have hc : c ≠ sep := fun e => h (by simp [e])
    have hcs : sep ∉ cs := fun e => h (by simp [e])
    simp [splitChars, hc, ih hcs]

theorem parseDigits_append (xs ys : List Char) (k : Nat) :
    parseDigits (xs ++ ys) k = (parseDigits xs k).bind (parseDigits ys) := by
  induction xs generalizing k with
  | nil => simp [parseDigits]
  | cons c cs ih =>
    simp only [List.cons_append, parseDigits]
    cases digitVal c with
    | none => simp
    | some d => simpa using ih _

theorem digitVal_digitChar : ∀ m : Nat, m < 10 → digitVal (Nat.digitChar m) = some m := by
  decide

theorem digitChar_ne_comma : ∀ m : Nat, m < 10 → Nat.digitChar m ≠ ',' := by
  decide

theorem digitChar_ne_sign : ∀ m : Nat, m < 10 →
    Nat.digitChar m ≠ '-' ∧ Nat.digitChar m ≠ '+' := by
  decide

/-- Text produced by the digit loop of `Nat.repr`: some digits in front of the accumulator,
which read back as the number. -/
theorem toDigitsCore_spec (fuel : Nat) : ∀ (n : Nat) (acc : List Char), n < fuel →
    ∃ ds : List Char, Nat.toDigitsCore 10 fuel n acc = ds ++ acc ∧
      parseDigits ds 0 = some n ∧ ds ≠ [] ∧
      ∀ c ∈ ds, ∃ m, m < 10 ∧ c = Nat.digitChar m := by
  induction fuel with
  | zero => intro n acc h; omega
  | succ fuel ih =>
    intro n acc h
    simp only [Nat.toDigitsCore]
    by_cases h0 : n / 10 = 0
    · simp only [h0, if_true]
      have hn : n < 10 := by omega
      refine ⟨[Nat.digitChar (n % 10)], by simp, ?_, by simp, ?_⟩
      · simp [parseDigits, digitVal_digitChar n hn, Nat.mod_eq_of_lt hn]
      · intro c hc
        exact ⟨n % 10, by omega, by simpa using hc⟩
    · simp only [h0, if_false]
      obtain ⟨ds, hds, hp, _, hall⟩ := ih (n / 10) (Nat.digitChar (n % 10) :: acc) (by omega)
      refine ⟨ds ++ [Nat.digitChar (n % 10)], by simp [hds], ?_, by simp, ?_⟩
      · rw [parseDigits_append, hp]
        simp only [Option.some_bind, parseDigits, digitVal_digitChar (n % 10) (by omega)]
        congr 1
        omega
      · intro c hc
        rcases List.mem_append.mp hc with hc | hc
        · exact hall c hc
        · exact ⟨n % 10, by omega, by simpa using hc⟩

theorem repr_data_spec (n : Nat) :
    parseDigits (Nat.repr n).data 0 = some n ∧ (Nat.repr n).data ≠ [] ∧
      ∀ c ∈ (Nat.repr n).data, ∃ m, m < 10 ∧ c = Nat.digitChar m := by
  obtain ⟨ds, hds, hp, hne, hall⟩ := toDigitsCore_spec (n + 1) n [] (by omega)
  have : (Nat.repr n).data = ds := by
    simp [Nat.repr, Nat.toDigits, List.asString, hds]
  rw [this]
  exact ⟨hp, hne, hall⟩

theorem formatInt_data (i : Int) :
    (formatInt i).data =
      if i < 0 then '-' :: (Nat.repr i.natAbs).data else (Nat.repr i.natAbs).data := by
  unfold formatInt
  split <;> simp [String.data_append]

theorem comma_not_mem_formatInt (i : Int) : ',' ∉ (formatInt i).data := by
  have h := (repr_data_spec i.natAbs).2.2
  have hd : ',' ∉ (Nat.repr i.natAbs).data := by
    intro hm
    obtain ⟨m, hm10, e⟩ := h _ hm
    exact digitChar_ne_comma m hm10 e.symm
  rw [formatInt_data]
  split
  · simp [hd]
  · exact hd

theorem Atoi_formatInt (i : Int) (hlo : -(2 : Int) ^ 63 ≤ i) (hhi : i < (2 : Int) ^ 63) :
    Atoi (formatInt i) = some i := by
  obtain ⟨hp, hne, hall⟩ := repr_data_spec i.natAbs
  unfold Atoi
  rw [formatInt_data]
  by_cases hneg : i < 0
  · simp only [hneg, if_true, splitSign]
    simp only [hne, if_false, hp]
    have : -((i.natAbs : Nat) : Int) = i := by omega
    simp only [if_true, this]
    rw [if_pos ⟨hlo, hhi⟩]
  · simp only [hneg, if_false]
    have hs : splitSign (Nat.repr i.natAbs).data = (false, (Nat.repr i.natAbs).data) := by
      cases hd : (Nat.repr i.natAbs).data with
      | nil => exact absurd hd hne
      | cons c cs =>
        obtain ⟨m, hm10, e⟩ := hall c (by simp [hd])
        have := digitChar_ne_sign m hm10
        unfold splitSign
        split
        · rename_i heq; simp at heq; exact absurd (heq.1 ▸ e).symm this.1
        · rename_i heq; simp at heq; exact absurd (heq.1 ▸ e).symm this.2
        · rfl
    rw [hs]
    simp only [hne, if_false, hp]
    have : ((i.natAbs : Nat) : Int) = i := by omega
    simp only [Bool.false_eq_true, if_false, this]
    rw [if_pos ⟨hlo, hhi⟩]

/-! ## Lemmas on `combine` -/

theorem Res_bind_fatal_foldl {α β : Type} (g : Res α → β → Res α)
    (hg : ∀ f b, g (.fatal f) b = .fatal f) (f : Fatal) (l : List β) :
    l.foldl g (.fatal f) = .fatal f := by
  induction l with
  | nil => rfl
  | cons b rest ih => simp [List.foldl_cons, hg, ih]

theorem Res_bind_panic_foldl {α β : Type} (g : Res α → β → Res α)
    (hg : ∀ b, g .panic b = .panic) (l : List β) :
    l.foldl g .panic = .panic := by
  induction l with
  | nil => rfl
  | cons b rest ih => simp [List.foldl_cons, hg, ih]

theorem foldl_combineStep {Img F : Type} (L : Lib Img F) (vs : List Variation) (img : Img) :
    vs.foldl (combineStep L) (.ok img) = combineLoop L vs img := by
  induction vs generalizing img with
  | nil => rfl
  | cons v rest ih =>
    simp only [List.foldl_cons, combineLoop]
    cases hm : m L v.Typ with
    | none =>
      simp only [combineStep, Res.bind, hm]
      exact Res_bind_fatal_foldl _ (fun _ _ => rfl) _ _
    | some fn =>
      cases hf : fn img v.Details with
      | ok r =>
        simp only [combineStep, Res.bind, hm, hf, Res.map]
        exact ih r.1
      | fatal f =>
        simp only [combineStep, Res.bind, hm, hf, Res.map]
        exact Res_bind_fatal_foldl _ (fun _ _ => rfl) _ _
      | panic =>
        simp only [combineStep, Res.bind, hm, hf, Res.map]
        exact Res_bind_panic_foldl _ (fun _ => rfl) _

/-- The source form of `combine`: decode the nested steps, run the loop against the
registry `m`, return the final image with the suffix `"combine"`. -/
theorem combine_eq {Img F : Type} (L : Lib Img F) (img : Img) (msg : RawMessage) :
    combine L img msg =
      (getObject unmarshalVariations msg).bind fun vs =>
        (combineLoop L vs img).map fun out => (out, "combine") := by
  rw [combine.eq_def]
  cases msg with
  | none => rfl
  | some j =>
    simp only [getObject]
    split
    · rename_i h
      simp [h, Res.bind]
    · rename_i vs h
      simp only [h, Res.bind]
      rw [← foldl_combineStep]
      have := List.foldl_attach vs (combineStep L) (.ok img)
      rw [← this]
      congr 1
      refine congrArg (fun g => List.foldl g (Res.ok img) vs.attach) ?_
      funext acc v
      cases acc with
      | ok a =>
        simp only [combineStep, Res.bind, m]
        by_cases hc : v.1.Typ = "combine"
        · simp only [hc, if_true]
        · simp only [hc, if_false]
      | fatal f => rfl
      | panic => rfl

theorem Split_four (a b c d : String) (ha : ',' ∉ a.data) (hb : ',' ∉ b.data)
    (hc : ',' ∉ c.data) (hd : ',' ∉ d.data) :
    Split (a ++ "," ++ b ++ "," ++ c ++ "," ++ d) ',' = [a, b, c, d] := by
  have e : (a ++ "," ++ b ++ "," ++ c ++ "," ++ d).data =
      a.data ++ ',' :: (b.data ++ ',' :: (c.data ++ ',' :: d.data)) := by
    simp [String.data_append]
  unfold Split
  rw [e, splitChars_append_sep _ _ _ ha, splitChars_append_sep _ _ _ hb,
    splitChars_append_sep _ _ _ hc, splitChars_of_not_mem _ _ hd]
  rfl

/-! ## The claims on `main.go` -/

/-- C5 (code at the failing input): for the empty `Rgba` string `strings.Split` returns the
one-element slice `[""]`, so the `len(parts) == 0` default is not taken and `colors`
ends the run with the fatal "rgba should be in the form" error. -/
theorem colors_empty_string_is_fatal :
    Split "" ',' = [""] ∧ colors "" = .fatal .rgbaForm := by
  decide

/-- C6: for all `r g b a` of Go type `int`, `colors` applied to their decimal forms joined
by commas returns exactly `(r, g, b, a)`; and every string that splits on `','` into one,
two or three components makes `colors` end the run with the fatal rgba-form error. -/
theorem colors_four_components_or_fatal :
    (∀ r g b a : Int, InInt64 r → InInt64 g → InInt64 b → InInt64 a →
      colors (formatInt r ++ "," ++ formatInt g ++ "," ++ formatInt b ++ "," ++ formatInt a)
        = .ok (r, g, b, a)) ∧
    (∀ s : String, 1 ≤ (Split s ',').length → (Split s ',').length ≤ 3 →
      colors s = .fatal .rgbaForm) := by
  constructor
  · intro r g b a hr hg hb ha
    unfold colors
    rw [Split_four _ _ _ _ (comma_not_mem_formatInt r) (comma_not_mem_formatInt g)
      (comma_not_mem_formatInt b) (comma_not_mem_formatInt a)]
    simp [Atoi_formatInt r hr.1 hr.2, Atoi_formatInt g hg.1 hg.2,
      Atoi_formatInt b hb.1 hb.2, Atoi_formatInt a ha.1 ha.2]
  · intro s h1 h3
    unfold colors
    have hne : (Split s ',').length ≠ 0 := by omega
    have hlt : (Split s ',').length < 4 := by omega
    simp [hne, hlt]

/-- C6 at `"10,20,30,40"` and at the three-component string `"10,20,30"`. -/
theorem colors_four_components_or_fatal_witness :
    (InInt64 10 ∧ InInt64 20 ∧ InInt64 30 ∧ InInt64 40 ∧
      colors "10,20,30,40" = .ok (10, 20, 30, 40)) ∧
    (1 ≤ (Split "10,20,30" ',').length ∧ (Split "10,20,30" ',').length ≤ 3 ∧
      colors "10,20,30" = .fatal .rgbaForm) :=
  ⟨⟨by decide, by decide, by decide, by decide,
      colors_four_components_or_fatal.1 10 20 30 40 (by decide) (by decide) (by decide)
        (by decide)⟩,
    ⟨by decide, by decide,
      colors_four_components_or_fatal.2 "10,20,30" (by decide) (by decide)⟩⟩

/-- C8 (claim refuted): when the folder is absent, `outputFolderCheck` ends the run with
the fatal "Could not create dir" error both when the creation fails and when it succeeds. -/
theorem outputFolderCheck_absent_folder_is_fatal :
    outputFolderCheck readOnlyOS [] "out"
        = ([], .fatal (.couldNotCreateDir "out" (some (.other "permission denied")))) ∧
    outputFolderCheck okOS [] "out" = (["out"], .fatal (.couldNotCreateDir "out" none)) := by
  decide

/-- C8 (amended): when `os.Stat` reports that the folder does not exist,
`outputFolderCheck` calls `os.MkdirAll` on it (the file system after the call is the one
`os.MkdirAll` leaves), and a failure of that call ends the run with the fatal "Could not
create dir" error carrying that failure; when the folder exists (`os.Stat` reports no
error) the file system is left as it was and the run proceeds. -/
theorem outputFolderCheck_creation_failure_is_fatal {σ : Type} (O : OS σ) (w : σ)
    (path : String) :
    (O.Stat w path = some .notExist →
      (outputFolderCheck O w path).1 = (O.MkdirAll w path).1 ∧
      ∀ err, (O.MkdirAll w path).2 = some err →
        outputFolderCheck O w path
          = ((O.MkdirAll w path).1, .fatal (.couldNotCreateDir path (some err)))) ∧
    (O.Stat w path = none → outputFolderCheck O w path = (w, .ok ())) := by
  constructor
  · intro hs
    constructor
    · simp [outputFolderCheck, hs, IsNotExist]
    · intro err hm
      simp [outputFolderCheck, hs, IsNotExist, hm]
  · intro hs
    simp [outputFolderCheck, hs, IsNotExist]

/-- C8 (amended) on three file systems: an absent folder whose creation works (the
folder is there afterwards), an absent folder whose creation fails (fatal), and a folder
that exists (nothing happens). -/
theorem outputFolderCheck_creation_failure_is_fatal_witness :
    (okOS.Stat [] "out" = some .notExist ∧
      (okOS.MkdirAll [] "out").1 = ["out"] ∧
      (outputFolderCheck okOS [] "out").1 = ["out"]) ∧
    (readOnlyOS.Stat [] "out" = some .notExist ∧
      (readOnlyOS.MkdirAll [] "out").2 = some (.other "permission denied") ∧
      outputFolderCheck readOnlyOS [] "out"
        = ((readOnlyOS.MkdirAll [] "out").1,
            .fatal (.couldNotCreateDir "out" (some (.other "permission denied"))))) ∧
    (okOS.Stat ["out"] "out" = none ∧ outputFolderCheck okOS ["out"] "out" = (["out"], .ok ())) :=
  ⟨⟨by decide, by decide,
      ((outputFolderCheck_creation_failure_is_fatal okOS [] "out").1 (by decide)).1⟩,
    ⟨by decide, by decide,
      ((outputFolderCheck_creation_failure_is_fatal readOnlyOS [] "out").1 (by decide)).2 _
        (by decide)⟩,
    ⟨by decide, (outputFolderCheck_creation_failure_is_fatal okOS ["out"] "out").2 (by decide)⟩⟩

theorem applyTextTransforms_of_known (U : Unicode) :
    ∀ (tags : List String) (data : String),
      (∀ tag ∈ tags, normTag U tag = "" ∨ normTag U tag = "capitalize") →
      applyTextTransforms U tags data =
        .ok (tags.foldl
          (fun d tag => if normTag U tag = "capitalize" then ToUpper U d else d) data) := by
  intro tags
  induction tags with
  | nil => intro data _; rfl
  | cons tag rest ih =>
    intro data h
    have hrest : ∀ x ∈ rest, normTag U x = "" ∨ normTag U x = "capitalize" :=
      fun x hx => h x (List.mem_cons_of_mem _ hx)
    have ht := h tag (by simp)
    simp only [applyTextTransforms, List.foldl_cons]
    change (if normTag U tag = "" then _ else if normTag U tag = "capitalize" then _ else _) = _
    rcases ht with ht | ht
    · rw [if_pos ht, ih data hrest]
      have : ¬ (normTag U tag = "capitalize") := by rw [ht]; decide
      rw [if_neg this]
    · have hne : ¬ (normTag U tag = "") := by rw [ht]; decide
      rw [if_neg hne, if_pos ht, ih _ hrest, if_pos ht]

theorem applyTextTransforms_of_unknown (U : Unicode) :
    ∀ (tags : List String) (data : String),
      (∃ tag ∈ tags, normTag U tag ≠ "" ∧ normTag U tag ≠ "capitalize") →
      ∃ tag ∈ tags, (normTag U tag ≠ "" ∧ normTag U tag ≠ "capitalize") ∧
        applyTextTransforms U tags data = .fatal (.unrecognizedTextTransform tag) := by
  intro tags
  induction tags with
  | nil => intro data h; obtain ⟨_, hm, _⟩ := h; simp at hm
  | cons tag rest ih =>
    intro data h
    by_cases h1 : normTag U tag = ""
    · obtain ⟨x, hx, hbad⟩ := h
      have hxr : x ∈ rest := by
        rcases List.mem_cons.mp hx with e | hr
        · subst e; exact absurd h1 hbad.1
        · exact hr
      obtain ⟨y, hy, hyb, hres⟩ := ih data ⟨x, hxr, hbad⟩
      refine ⟨y, List.mem_cons_of_mem _ hy, hyb, ?_⟩
      simp only [applyTextTransforms]
      change (if normTag U tag = "" then _ else _) = _
      rw [if_pos h1, hres]
    · by_cases h2 : normTag U tag = "capitalize"
      · obtain ⟨x, hx, hbad⟩ := h
        have hxr : x ∈ rest := by
          rcases List.mem_cons.mp hx with e | hr
          · subst e; exact absurd h2 hbad.2
          · exact hr
        obtain ⟨y, hy, hyb, hres⟩ := ih (ToUpper U data) ⟨x, hxr, hbad⟩
        refine ⟨y, List.mem_cons_of_mem _ hy, hyb, ?_⟩
        simp only [applyTextTransforms]
        change (if normTag U tag = "" then _ else if normTag U tag = "capitalize" then _
          else _) = _
        rw [if_neg h1, if_pos h2, hres]
      · refine ⟨tag, by simp, ⟨h1, h2⟩, ?_⟩
        simp only [applyTextTransforms]
        change (if normTag U tag = "" then _ else if normTag U tag = "capitalize" then _
          else _) = _
        rw [if_neg h1, if_neg h2]

theorem getContent_fixed (U : Unicode) (E : Env) {F : Type} (t : Text F) (s : String)
    (hct : ToLower U t.ContentType = "fixed") (hfix : t.Fixed = some ⟨s⟩) :
    getContent U E t =
      (applyTextTransforms U (Split t.TextTransform ',') s).map fun data => (data, none) := by
  simp [getContent, contentData, hct, hfix, Res.bind]

/-- C7: for a `Text` whose content type is `Fixed` (any spelling that lower-cases to
`"fixed"`) with content `s`, `getContent` applies the comma-separated tags in order: the
chain `"capitalize"` returns the uppercase form of `s`; a chain whose tags are all empty
after lower-casing and trimming returns `s` unchanged; a chain of empty and `capitalize`
tags returns `s` with the tags applied from left to right; and if some tag is neither
empty nor `capitalize`, the run ends with the fatal "Unrecognized text transform" error
naming such a tag. -/
theorem getContent_fixed_transform_chain (U : Unicode) (E : Env) {F : Type} (t : Text F)
    (s : String) (hct : ToLower U t.ContentType = "fixed") (hfix : t.Fixed = some ⟨s⟩) :
    (t.TextTransform = "capitalize" → getContent U E t = .ok (ToUpper U s, none)) ∧
    ((∀ tag ∈ Split t.TextTransform ',', normTag U tag = "") →
      getContent U E t = .ok (s, none)) ∧
    ((∀ tag ∈ Split t.TextTransform ',', normTag U tag = "" ∨ normTag U tag = "capitalize") →
      getContent U E t = .ok ((Split t.TextTransform ',').foldl
        (fun d tag => if normTag U tag = "capitalize" then ToUpper U d else d) s, none)) ∧
    ((∃ tag ∈ Split t.TextTransform ',', normTag U tag ≠ "" ∧ normTag U tag ≠ "capitalize") →
      ∃ tag ∈ Split t.TextTransform ',', (normTag U tag ≠ "" ∧ normTag U tag ≠ "capitalize") ∧
        getContent U E t = .fatal (.unrecognizedTextTransform tag)) := by
  rw [getContent_fixed U E t s hct hfix]
  have hknown := applyTextTransforms_of_known U (Split t.TextTransform ',') s
  refine ⟨?_, ?_, ?_, ?_⟩
  · intro hcap
    have hsplit : Split t.TextTransform ',' = ["capitalize"] := by rw [hcap]; rfl
    have hn : normTag U "capitalize" = "capitalize" := rfl
    rw [hsplit] at hknown ⊢
    rw [hknown (by intro tag htag; simp at htag; subst htag; exact Or.inr hn)]
    simp [hn, Res.map]
  · intro hall
    rw [hknown (fun tag htag => Or.inl (hall tag htag))]
    have : ∀ (l : List String) (d : String), (∀ tag ∈ l, normTag U tag = "") →
        l.foldl (fun d tag => if normTag U tag = "capitalize" then ToUpper U d else d) d
          = d := by
      intro l
      induction l with
      | nil => intro d _; rfl
      | cons x xs ih =>
        intro d h
        have hx := h x (by simp)
        have : ¬ (normTag U x = "capitalize") := by rw [hx]; decide
        simp only [List.foldl_cons, if_neg this]
        exact ih d (fun y hy => h y (List.mem_cons_of_mem _ hy))
    simp [this _ s hall, Res.map]
  · intro hall
    rw [hknown hall]
    rfl
  · intro hbad
    obtain ⟨tag, hmem, hb, hres⟩ :=
      applyTextTransforms_of_unknown U (Split t.TextTransform ',') s hbad
    exact ⟨tag, hmem, hb, by rw [hres]; rfl⟩

/-- C7 on three `Fixed` texts: the chain `"capitalize"`, the chain `" , "` of empty tags,
and the chain `"capitalize,lower"`. -/
theorem getContent_fixed_transform_chain_witness :
    (ToLower plainUnicode (fixedText "abc" "capitalize").ContentType = "fixed" ∧
      (fixedText "abc" "capitalize").Fixed = some ⟨"abc"⟩ ∧
      getContent plainUnicode (fileEnv .null) (fixedText "abc" "capitalize")
        = .ok ("ABC", none)) ∧
    ((∀ tag ∈ Split (fixedText "abc" " , ").TextTransform ',', normTag plainUnicode tag = "") ∧
      getContent plainUnicode (fileEnv .null) (fixedText "abc" " , ") = .ok ("abc", none)) ∧
    (∃ tag ∈ Split (fixedText "abc" "capitalize,lower").TextTransform ',',
      (normTag plainUnicode tag ≠ "" ∧ normTag plainUnicode tag ≠ "capitalize") ∧
      getContent plainUnicode (fileEnv .null) (fixedText "abc" "capitalize,lower")
        = .fatal (.unrecognizedTextTransform tag)) :=
  ⟨⟨by decide, rfl,
      (getContent_fixed_transform_chain plainUnicode (fileEnv .null)
        (fixedText "abc" "capitalize") "abc" (by decide) rfl).1 rfl⟩,
    ⟨by decide,
      (getContent_fixed_transform_chain plainUnicode (fileEnv .null)
        (fixedText "abc" " , ") "abc" (by decide) rfl).2.1 (by decide)⟩,
    (getContent_fixed_transform_chain plainUnicode (fileEnv .null)
      (fixedText "abc" "capitalize,lower") "abc" (by decide) rfl).2.2.2
        ⟨"lower", by decide, by decide, by decide⟩⟩

/-! ## The claims on the operations of `transforms.go` -/

/-- The default suffixes of the five pixel adjustments, for every library and every
decoded `Amount`: `gamma` alone does not use its own registry name. -/
theorem pixel_adjustment_suffixes {Img F : Type} (L : Lib Img F) (img : Img) (j : Json) :
    (∀ a, unmarshalFloatAmount L j = some ⟨a⟩ →
      brightness L img (some j) = .ok (L.Brightness img a, "brightness-" ++ L.FormatFloat a) ∧
      contrast L img (some j) = .ok (L.Contrast img a, "contrast-" ++ L.FormatFloat a) ∧
      gamma L img (some j) = .ok (L.Contrast img a, "contrast-" ++ L.FormatFloat a) ∧
      saturation L img (some j)
        = .ok (L.Saturation img a, "saturation-" ++ L.FormatFloat a)) ∧
    (∀ a, unmarshalHue j = some ⟨a⟩ →
      hue L img (some j) = .ok (L.Hue img a, "hue-" ++ formatInt a)) := by
  constructor
  · intro a h
    simp [brightness, contrast, gamma, saturation, getObject, h, Res.bind]
  · intro a h
    simp [hue, getObject, h, Res.bind]

/-- The rectangle that `cropIn` passes to the external crop, for every library, image
and decoded parameters. -/
theorem cropIn_rectangle {Img F : Type} (L : Lib Img F) (img : Img) (j : Json) (v : CropIn)
    (h : unmarshalCropIn j = some v) :
    cropIn L img (some j)
      = .ok (L.Crop img
          ⟨⟨wrap64 ((L.Bounds img).Min.X - v.Left), wrap64 ((L.Bounds img).Min.Y - v.Top)⟩,
            ⟨wrap64 ((L.Bounds img).Max.X - v.Right),
              wrap64 ((L.Bounds img).Max.Y - v.Bottom)⟩⟩,
          "cropIn-" ++ formatInt v.Left ++ "-" ++ formatInt v.Top ++ "-" ++
            formatInt v.Bottom ++ "-" ++ formatInt v.Right) := by
  simp [cropIn, getObject, h, Res.bind]

/-- C4 (code at the failing input): `gamma` is word for word `contrast`: it calls
`adjust.Contrast` and names its result `contrast-<amount>`; with `{"Amount": 2}` the
suffix is `contrast-2`, not `gamma-2`. -/
theorem gamma_suffix_is_contrast :
    (∀ (Img F : Type) (L : Lib Img F) (img : Img) (msg : RawMessage),
      gamma L img msg = contrast L img msg) ∧
    gamma symLib srcImg (some amountDoc) = .ok (symLib.Contrast srcImg 2, "contrast-2") ∧
    brightness symLib srcImg (some amountDoc)
      = .ok (symLib.Brightness srcImg 2, "brightness-2") :=
  ⟨fun _ _ _ _ _ => rfl, by decide, by decide⟩

/-- C10 (code at the failing input): on an image with bounds (0,0)-(100,100) and
`Left = Top = Right = Bottom = 10`, `cropIn` passes the rectangle (-10,-10)-(90,90) to the
external crop: the `Min` corner is moved outward, out of the image bounds, and not to
(10,10). -/
theorem cropIn_min_corner_moves_outward :
    symLib.Bounds srcImg = ⟨⟨0, 0⟩, ⟨100, 100⟩⟩ ∧
    unmarshalCropIn cropDoc = some ⟨10, 10, 10, 10⟩ ∧
    cropIn symLib srcImg (some cropDoc)
      = .ok (symLib.Crop srcImg ⟨⟨-10, -10⟩, ⟨90, 90⟩⟩, "cropIn-10-10-10-10") ∧
    symLib.Crop srcImg ⟨⟨-10, -10⟩, ⟨90, 90⟩⟩ ≠ symLib.Crop srcImg ⟨⟨10, 10⟩, ⟨90, 90⟩⟩ := by
  decide

/-! ## The claims on `combine` and `doTransforms` -/

theorem combineLoop_ok_iff {Img F : Type} (L : Lib Img F) :
    ∀ (vs : List Variation) (img out : Img),
      combineLoop L vs img = .ok out ↔ Threaded L img vs out := by
  intro vs
  induction vs with
  | nil =>
    intro img out
    constructor
    · intro h
      simp only [combineLoop, Res.ok.injEq] at h
      subst h
      exact Threaded.done img
    · intro h
      cases h
      rfl
  | cons v rest ih =>
    intro img out
    constructor
    · intro h
      simp only [combineLoop] at h
      cases hm : m L v.Typ with
      | none => simp [hm] at h
      | some fn =>
        simp only [hm] at h
        cases hf : fn img v.Details with
        | ok r =>
          simp only [hf, Res.bind] at h
          exact Threaded.step hm (by rw [hf]) ((ih r.1 out).mp h)
        | fatal f => simp [hf, Res.bind] at h
        | panic => simp [hf, Res.bind] at h
    · intro h
      cases h with
      | step hm hf hrest =>
        simp only [combineLoop, hm, hf, Res.bind]
        exact (ih _ out).mpr hrest

/-- C2: when the `Details` of a `combine` step decode to the nested steps `vs`, `combine`
returns `(out, "combine")` exactly when running `vs` one after another in list order,
each on the image produced by the one before, starting from the input image and
dropping every nested suffix, ends in `out`. In particular `combine` on
`[flipH, flipV]` returns `FlipV (FlipH img)`, and on the empty list the input image,
both with the suffix `"combine"`. -/
theorem combine_threads_nested_steps {Img F : Type} (L : Lib Img F) (img : Img) (j : Json)
    (vs : List Variation) (hdec : unmarshalVariations j = some vs) :
    (∀ out, Threaded L img vs out → combine L img (some j) = .ok (out, "combine")) ∧
    (∀ r, combine L img (some j) = .ok r → Threaded L img vs r.1 ∧ r.2 = "combine") ∧
    combine L img (some flipsDoc) = .ok (L.FlipV (L.FlipH img), "combine") ∧
    combine L img (some (.arr [])) = .ok (img, "combine") := by
  have key : ∀ (j' : Json) (vs' : List Variation), unmarshalVariations j' = some vs' →
      combine L img (some j') = (combineLoop L vs' img).map fun out => (out, "combine") := by
    intro j' vs' h
    rw [combine_eq]
    simp [getObject, h, Res.bind]
  refine ⟨?_, ?_, ?_, ?_⟩
  · intro out hth
    rw [key j vs hdec, (combineLoop_ok_iff L vs img out).mpr hth]
    rfl
  · intro r hr
    rw [key j vs hdec] at hr
    cases hl : combineLoop L vs img with
    | ok out =>
      simp only [hl, Res.map, Res.ok.injEq] at hr
      subst hr
      exact ⟨(combineLoop_ok_iff L vs img out).mp hl, rfl⟩
    | fatal f => simp [hl, Res.map] at hr
    | panic => simp [hl, Res.map] at hr
  · rw [key flipsDoc [⟨"flipH", none, none⟩, ⟨"flipV", none, none⟩] rfl]
    rfl
  · rw [key (.arr []) [] rfl]
    rfl

/-- C2 on the symbolic library: a nested `combine` of `[flipH]` followed by `gamma`. -/
theorem combine_threads_nested_steps_witness :
    unmarshalVariations nestedDoc = some nestedSteps ∧
    Threaded symLib srcImg nestedSteps (symLib.Contrast (symLib.FlipH srcImg) 2) ∧
    combine symLib srcImg (some nestedDoc)
      = .ok (symLib.Contrast (symLib.FlipH srcImg) 2, "combine") :=
  have hinner : combine symLib srcImg (some (.arr [.obj [("Type", .str "flipH")]]))
      = .ok (symLib.FlipH srcImg, "combine") :=
    (combine_threads_nested_steps symLib srcImg (.arr [.obj [("Type", .str "flipH")]])
      [⟨"flipH", none, none⟩] rfl).1 _
      (Threaded.step (rfl : m symLib "flipH" = some (flipH symLib)) rfl (Threaded.done _))
  have hth : Threaded symLib srcImg nestedSteps (symLib.Contrast (symLib.FlipH srcImg) 2) :=
    Threaded.step (rfl : m symLib "combine" = some (combine symLib)) hinner
      (Threaded.step (rfl : m symLib "gamma" = some (gamma symLib)) rfl (Threaded.done _))
  ⟨rfl, hth, (combine_threads_nested_steps symLib srcImg nestedDoc nestedSteps rfl).1 _ hth⟩

theorem doTransformsLoop_spec {Img F : Type} (L : Lib Img F) (img : Img) :
    ∀ (vs : List Variation) (imgs : List (ImageVariation Img)),
      (∀ v ∈ vs, ∃ fn r, m L v.Typ = some fn ∧ fn img v.Details = .ok r) →
      ∃ outs, doTransformsLoop L img vs imgs = .ok (imgs ++ outs) ∧
        List.Forall₂ (StepYields L img) vs outs := by
  intro vs
  induction vs with
  | nil =>
    intro imgs _
    exact ⟨[], by simp [doTransformsLoop], List.Forall₂.nil⟩
  | cons v rest ih =>
    intro imgs h
    obtain ⟨fn, r, hm, hf⟩ := h v (by simp)
    obtain ⟨newImg, d⟩ := r
    obtain ⟨outs, hloop, hall⟩ :=
      ih (imgs ++ [⟨newImg, if (getSuffix v).2 then (getSuffix v).1 else d⟩])
        (fun x hx => h x (List.mem_cons_of_mem _ hx))
    refine ⟨⟨newImg, if (getSuffix v).2 then (getSuffix v).1 else d⟩ :: outs, ?_, ?_⟩
    · simp only [doTransformsLoop, hm, hf, hloop]
      simp
    · refine List.Forall₂.cons ⟨fn, newImg, d, hm, hf, rfl, ?_⟩ hall
      cases hs : v.Suffix <;> simp [getSuffix, hs]

theorem doTransforms_spec {Img F : Type} (L : Lib Img F) (E : Env) (img : Img)
    (path b : String) (j : Json) (vs : List Variation) (hpath : path ≠ "")
    (hread : E.ReadFile path = .ok b) (hparse : E.parseJson b = some j)
    (hdec : unmarshalVariations j = some vs)
    (hsteps : ∀ v ∈ vs, ∃ fn r, m L v.Typ = some fn ∧ fn img v.Details = .ok r) :
    ∃ outs, doTransforms L E img (some path) = .ok (⟨img, ""⟩ :: outs) ∧
      List.Forall₂ (StepYields L img) vs outs := by
  obtain ⟨outs, hloop, hall⟩ := doTransformsLoop_spec L img vs [⟨img, ""⟩] hsteps
  refine ⟨outs, ?_, hall⟩
  simp [doTransforms, hpath, hread, hparse, hdec, hloop]

/-- C1: when the variations file decodes to the steps `vs`, every step's `Type` is
registered and its function returns, `doTransforms` returns the base image followed by
one `ImageVariation` per step, in order; the info string of the variation of a step that
carries a `Suffix` (`getSuffix` returns it with `ok = true`) is that `Suffix` verbatim,
the empty string included, and the info string of a step without `Suffix` is the default
suffix returned by the step's function. -/
theorem doTransforms_given_suffix_wins {Img F : Type} (L : Lib Img F) (E : Env) (img : Img)
    (path b : String) (j : Json) (vs : List Variation) (hpath : path ≠ "")
    (hread : E.ReadFile path = .ok b) (hparse : E.parseJson b = some j)
    (hdec : unmarshalVariations j = some vs)
    (hsteps : ∀ v ∈ vs, ∃ fn r, m L v.Typ = some fn ∧ fn img v.Details = .ok r) :
    ∃ outs, doTransforms L E img (some path) = .ok (⟨img, ""⟩ :: outs) ∧
      List.Forall₂
        (fun v iv =>
          (∀ s, v.Suffix = some s → getSuffix v = (s, true) ∧ iv.info = s) ∧
          (v.Suffix = none → (getSuffix v).2 = false ∧
            ∃ fn newImg defaultSuffix, m L v.Typ = some fn ∧
              fn img v.Details = .ok (newImg, defaultSuffix) ∧ iv.info = defaultSuffix))
        vs outs := by
  obtain ⟨outs, hres, hall⟩ := doTransforms_spec L E img path b j vs hpath hread hparse hdec hsteps
  refine ⟨outs, hres, hall.imp ?_⟩
  intro v iv hy
  obtain ⟨fn, newImg, d, hm, hf, _, hinfo⟩ := hy
  constructor
  · intro s hs
    rw [hs] at hinfo
    exact ⟨by simp [getSuffix, hs], hinfo⟩
  · intro hs
    rw [hs] at hinfo
    exact ⟨by simp [getSuffix, hs], fn, newImg, d, hm, hf, hinfo⟩

/-- C1 on `nestedDoc`: the `combine` step has no `Suffix` and is named `combine`; the
`gamma` step carries the empty `Suffix` and is named by the empty string. -/
theorem doTransforms_given_suffix_wins_witness :
    ("transforms.json" ≠ "" ∧
      (fileEnv nestedDoc).ReadFile "transforms.json" = .ok "transforms" ∧
      (fileEnv nestedDoc).parseJson "transforms" = some nestedDoc ∧
      unmarshalVariations nestedDoc = some nestedSteps ∧
      ∀ v ∈ nestedSteps, ∃ fn r, m symLib v.Typ = some fn ∧ fn srcImg v.Details = .ok r) ∧
    doTransforms symLib (fileEnv nestedDoc) srcImg (some "transforms.json")
      = .ok [⟨srcImg, ""⟩, ⟨symLib.FlipH srcImg, "combine"⟩, ⟨symLib.Contrast srcImg 2, ""⟩] ∧
    ∃ outs, doTransforms symLib (fileEnv nestedDoc) srcImg (some "transforms.json")
        = .ok (⟨srcImg, ""⟩ :: outs) ∧
      List.Forall₂
        (fun v iv =>
          (∀ s, v.Suffix = some s → getSuffix v = (s, true) ∧ iv.info = s) ∧
          (v.Suffix = none → (getSuffix v).2 = false ∧
            ∃ fn newImg defaultSuffix, m symLib v.Typ = some fn ∧
              fn srcImg v.Details = .ok (newImg, defaultSuffix) ∧ iv.info = defaultSuffix))
        nestedSteps outs :=
  have hsteps : ∀ v ∈ nestedSteps,
      ∃ fn r, m symLib v.Typ = some fn ∧ fn srcImg v.Details = .ok r := by
    intro v hv
    simp only [nestedSteps, List.mem_cons, List.mem_singleton, List.not_mem_nil,
      or_false] at hv
    rcases hv with e | e
    · subst e
      exact ⟨combine symLib, (symLib.FlipH srcImg, "combine"), rfl, by
        rw [combine_eq]; rfl⟩
    · subst e
      exact ⟨gamma symLib, (symLib.Contrast srcImg 2, "contrast-2"), rfl, by decide⟩
  have hc : combine symLib srcImg (some (.arr [.obj [("Type", .str "flipH")]]))
      = .ok (symLib.FlipH srcImg, "combine") := by
    rw [combine_eq]; rfl
  have hg : gamma symLib srcImg (some amountDoc)
      = .ok (symLib.Contrast srcImg 2, "contrast-2") := by decide
  have hm1 : m symLib "combine" = some (combine symLib) := rfl
  have hm2 : m symLib "gamma" = some (gamma symLib) := rfl
  have hrun : doTransforms symLib (fileEnv nestedDoc) srcImg (some "transforms.json")
      = doTransformsLoop symLib srcImg nestedSteps [⟨srcImg, ""⟩] := rfl
  ⟨⟨by decide, rfl, rfl, rfl, hsteps⟩, by
      rw [hrun]
      simp only [doTransformsLoop, nestedSteps, hm1, hm2, hc, hg, getSuffix]
      rfl,
    doTransforms_given_suffix_wins symLib (fileEnv nestedDoc) srcImg "transforms.json"
      "transforms" nestedDoc nestedSteps (by decide) rfl rfl rfl hsteps⟩

/-- The steps `[flipH, flipV]` on any library and any base image: both flips are taken
of the base image. -/
theorem doTransforms_flips {Img F : Type} (L : Lib Img F) (img : Img) :
    doTransforms L (fileEnv flipsDoc) img (some "transforms.json")
      = .ok [⟨img, ""⟩, ⟨L.FlipH img, "flipH"⟩, ⟨L.FlipV img, "flipV"⟩] := by
  rfl

/-- C3 (claim refuted): with the steps `[flipH, flipV]` the image of the second step is
`FlipV` of the base image; applying `flipV` to the image produced by the first step
would give `FlipV (FlipH base)`, a different image. -/
theorem doTransforms_second_step_on_base_image :
    doTransforms symLib (fileEnv flipsDoc) srcImg (some "transforms.json")
      = .ok [⟨srcImg, ""⟩, ⟨symLib.FlipH srcImg, "flipH"⟩, ⟨symLib.FlipV srcImg, "flipV"⟩] ∧
    flipV symLib (symLib.FlipH srcImg) none
      = .ok (symLib.FlipV (symLib.FlipH srcImg), "flipV") ∧
    symLib.FlipV srcImg ≠ symLib.FlipV (symLib.FlipH srcImg) := by
  decide

/-- C3 (amended): when the variations file decodes to the steps `vs`, every step's `Type`
is registered and its function returns, `doTransforms` returns the base image followed
by one `ImageVariation` per step, in order, and the image of every step is the result of
applying that step's function to the base image given to `doTransforms`. -/
theorem doTransforms_every_step_on_base_image {Img F : Type} (L : Lib Img F) (E : Env)
    (img : Img) (path b : String) (j : Json) (vs : List Variation) (hpath : path ≠ "")
    (hread : E.ReadFile path = .ok b) (hparse : E.parseJson b = some j)
    (hdec : unmarshalVariations j = some vs)
    (hsteps : ∀ v ∈ vs, ∃ fn r, m L v.Typ = some fn ∧ fn img v.Details = .ok r) :
    ∃ outs, doTransforms L E img (some path) = .ok (⟨img, ""⟩ :: outs) ∧
      List.Forall₂
        (fun v iv => ∃ fn defaultSuffix, m L v.Typ = some fn ∧
          fn img v.Details = .ok (iv.img, defaultSuffix))
        vs outs := by
  obtain ⟨outs, hres, hall⟩ := doTransforms_spec L E img path b j vs hpath hread hparse hdec hsteps
  refine ⟨outs, hres, hall.imp ?_⟩
  intro v iv hy
  obtain ⟨fn, newImg, d, hm, hf, himg, _⟩ := hy
  exact ⟨fn, d, hm, by rw [himg]; exact hf⟩

/-- C3 (amended) on the steps `[flipH, flipV]`: both images are flips of the base image. -/
theorem doTransforms_every_step_on_base_image_witness :
    ("transforms.json" ≠ "" ∧
      (fileEnv flipsDoc).ReadFile "transforms.json" = .ok "transforms" ∧
      (fileEnv flipsDoc).parseJson "transforms" = some flipsDoc ∧
      unmarshalVariations flipsDoc = some [⟨"flipH", none, none⟩, ⟨"flipV", none, none⟩] ∧
      ∀ v ∈ [(⟨"flipH", none, none⟩ : Variation), ⟨"flipV", none, none⟩],
        ∃ fn r, m symLib v.Typ = some fn ∧ fn srcImg v.Details = .ok r) ∧
    ∃ outs, doTransforms symLib (fileEnv flipsDoc) srcImg (some "transforms.json")
        = .ok (⟨srcImg, ""⟩ :: outs) ∧
      List.Forall₂
        (fun v iv => ∃ fn defaultSuffix, m symLib v.Typ = some fn ∧
          fn srcImg v.Details = .ok (iv.img, defaultSuffix))
        [(⟨"flipH", none, none⟩ : Variation), ⟨"flipV", none, none⟩] outs :=
  have hsteps : ∀ v ∈ [(⟨"flipH", none, none⟩ : Variation), ⟨"flipV", none, none⟩],
      ∃ fn r, m symLib v.Typ = some fn ∧ fn srcImg v.Details = .ok r := by
    intro v hv
    simp only [List.mem_cons, List.mem_singleton, List.not_mem_nil, or_false] at hv
    rcases hv with e | e
    · subst e
      exact ⟨flipH symLib, (symLib.FlipH srcImg, "flipH"), rfl, rfl⟩
    · subst e
      exact ⟨flipV symLib, (symLib.FlipV srcImg, "flipV"), rfl, rfl⟩
  ⟨⟨by decide, rfl, rfl, rfl, hsteps⟩,
    doTransforms_every_step_on_base_image symLib (fileEnv flipsDoc) srcImg
      "transforms.json" "transforms" flipsDoc _ (by decide) rfl rfl rfl hsteps⟩

end ImgAug
